import Mathlib

/-!
Verification development for the planning-instance synthesis pipeline
(`queries.py` / `queries_cplex.py`).

Python dictionaries are modelled as insertion-ordered association lists with
unique keys; `setdefault` appends a new binding at the end, mutation of an
existing binding keeps its position.  Timestamps and quantities are modelled
as rationals (seconds since the epoch), route-step indices as integers, and
the shift-boundary computation of `_build_employee_shift` in integer
microseconds of a (day, time-of-day) pair, matching `datetime` resolution.
-/

namespace InternalApp

/-- Python `str.upper()` on an ASCII string, modelled character-wise. -/
def pyUpper (s : String) : String :=
  ⟨s.data.map Char.toUpper⟩

/-- Python `str.strip()`: drop leading and trailing whitespace. -/
def pyStrip (s : String) : String :=
  ⟨((s.data.dropWhile Char.isWhitespace).reverse.dropWhile Char.isWhitespace).reverse⟩

/-- Lookup in an association list (Python `dict.get` / `in`). -/
def alookup {K V : Type} [DecidableEq K] : List (K × V) → K → Option V
  | [], _ => none
  | (a, v) :: rest, k => if a = k then some v else alookup rest k

/-- Python `d.setdefault(k, dflt)` followed by an in-place transformation of
`d[k]`: an existing binding keeps its position, a new binding is appended. -/
def amodify {K V : Type} [DecidableEq K] : List (K × V) → K → V → (V → V) → List (K × V)
  | [], k, dflt, f => [(k, f dflt)]
  | (a, v) :: rest, k, dflt, f =>
      if a = k then (a, f v) :: rest else (a, v) :: amodify rest k dflt f

/-- Python `d.setdefault(k, v)` (insert only if absent). -/
def dsetdefault {K V : Type} [DecidableEq K] (d : List (K × V)) (k : K) (v : V) :
    List (K × V) :=
  amodify d k v (fun x => x)

/-! ## Route normalizer (`_pad_boms_and_inject_fake_defaults_sparse`) -/

/-- Cycle table: process index → product code → workstation code → time/unit. -/
abbrev CycleT := List (Nat × List (String × List (String × ℚ)))

/-- Minimum-batch table: product code → workstation code → quantity. -/
abbrev MiniT := List (String × List (String × ℚ))

/-- Route table: product code → list of routes (each a workstation-code list). -/
abbrev BomT := List (String × List (List String))

/-- Python `max(lengths, default=0)` over a product's routes. -/
def maxLenOf (rs : List (List String)) : Nat :=
  rs.foldr (fun r m => max r.length m) 0

/-- True when some route of the product is shorter than the maximum, i.e. the
product requires padding. -/
def anyPad (rs : List (List String)) : Bool :=
  rs.any (fun r => r.length < maxLenOf rs)

/-- The 0-based process indices introduced by padding: the union over routes
shorter than the maximum of `range(orig_len, max_len)`, in sorted order. -/
def paddedIdxs (rs : List (List String)) : List Nat :=
  (List.range (maxLenOf rs)).filter (fun i => rs.any (fun r => r.length ≤ i))

/-- Pads every route: `routes[i] = route + [fake_ws] * (max_len - len(route))`. -/
def padRoutes (fake : String) (rs : List (List String)) : List (List String) :=
  rs.map (fun r => r ++ List.replicate (maxLenOf rs - r.length) fake)

/-- Runs `cycle.setdefault(idx, {}); cycle[idx].setdefault(p, {});
cycle[idx][p].setdefault(fake_ws, fake_cycle_model)`. -/
def cycleInject (cy : CycleT) (i : Nat) (p fake : String) (fc : ℚ) : CycleT :=
  amodify cy i [] (fun dp => amodify dp p [] (fun dw => dsetdefault dw fake fc))

/-- Runs `minibatch.setdefault(p, {}); minibatch[p].setdefault(fake_ws, fake_minibatch)`. -/
def miniInject (mi : MiniT) (p fake : String) (fm : ℚ) : MiniT :=
  amodify mi p [] (fun dw => dsetdefault dw fake fm)

/-- The per-product loop of `_pad_boms_and_inject_fake_defaults_sparse`:
pads the product's routes, and when any padding occurred injects the
minimum-batch default and a cycle default at every padded process index. -/
def padSparseGo (fake : String) (fc fm : ℚ) :
    CycleT → MiniT → BomT → CycleT × MiniT × BomT
  | cy, mi, [] => (cy, mi, [])
  | cy, mi, (p, rs) :: rest =>
      if anyPad rs then
        let mi2 := miniInject mi p fake fm
        let cy2 := (paddedIdxs rs).foldl (fun c i => cycleInject c i p fake fc) cy
        let out := padSparseGo fake fc fm cy2 mi2 rest
        (out.1, out.2.1, (p, padRoutes fake rs) :: out.2.2)
      else
        let out := padSparseGo fake fc fm cy mi rest
        (out.1, out.2.1, (p, padRoutes fake rs) :: out.2.2)

/-- The function `_pad_boms_and_inject_fake_defaults_sparse` as a pure transformation of
the three in-place-mutated structures. -/
def padSparse (fake : String) (fc fm : ℚ) (cy : CycleT) (mi : MiniT) (bom : BomT) :
    CycleT × MiniT × BomT :=
  padSparseGo fake fc fm cy mi bom

/-- Decidable probe: the cycle table has a sentinel-workstation binding at
(process index, product). -/
def cycleFakeAt (cy : CycleT) (i : Nat) (p fake : String) : Bool :=
  match alookup cy i with
  | none => false
  | some dp =>
    match alookup dp p with
    | none => false
    | some dw => (alookup dw fake).isSome

/-- Decidable probe: the minimum-batch table has a sentinel-workstation
binding for the product. -/
def miniFakeAt (mi : MiniT) (p fake : String) : Bool :=
  match alookup mi p with
  | none => false
  | some dw => (alookup dw fake).isSome

/-! ## Order state reconciliation (`load_orders`, both variants)

Per-order inputs gathered by the surrounding queries (base work-order row,
latest-event lookups keyed by this order) are modelled as a context record;
the final assembly loop body is embedded as a pure function of that record. -/

/-- Derived per-order output fields of the `orders[wo_num]` dictionary. -/
structure OrderOut where
  quantity : ℚ
  minProdTime : ℚ
  deliveryDate : ℚ
  lastProcess : Option ℤ
  status : String
  pastMachines : List String
  currentlyRunning : Bool
deriving DecidableEq

/-- Per-order context for the numeric variant (`queries.py`): base row fields
plus the per-order results of the latest-barcode-time, last-process,
past-machines and last-event lookups. `lastScan` is the most recent scan
event's (workstation code, route-step index) when any event exists. -/
structure CtxN where
  status : Option String
  min_prod_dt : Option ℚ
  promised_dt : Option ℚ
  qty_planned : Option ℚ
  latest_bc : Option ℚ
  last_process : Option ℤ
  lastScan : Option (Option String × Option ℤ)
  lastEventType : Option (Option String)
deriving DecidableEq

/-- Per-order context for the timestamp variant (`queries_cplex.py`); adds the
most recent COMPLETE event's produced quantity when recorded. -/
structure CtxC where
  status : Option String
  min_prod_dt : Option ℚ
  promised_dt : Option ℚ
  qty_planned : Option ℚ
  latest_bc : Option ℚ
  last_process : Option ℤ
  lastScan : Option (Option String × Option ℤ)
  lastEventType : Option (Option String)
  lastCompleteQty : Option ℚ
deriving DecidableEq

/-- The past-machines trail built from the most recent scan event row:
`["EMPTY"] * max(0, step - 1) + [ws]` when both the workstation and the
route-step index resolve, `[]` otherwise (including when there is no event). -/
def pastOfScan : Option (Option String × Option ℤ) → List String
  | none => []
  | some (ws, step) =>
    match ws, step with
    | some w, some s => List.replicate (s - 1).toNat "EMPTY" ++ [w]
    | _, _ => []

/-- Value of `datetime(9999, 1, 1, tzinfo=timezone.utc).timestamp()`. -/
def farFutureTs : ℚ := 253370764800

/-- Assembly-loop body of `load_orders` in `queries.py` (numeric variant). -/
def assembleOrderN (c : CtxN) : OrderOut :=
  let wo_status := pyUpper (pyStrip (c.status.getD ""))
  let qty : ℚ := c.qty_planned.getD 0
  let minProd0 : ℚ := match c.min_prod_dt with | some t => t | none => 0
  let minProd : ℚ :=
    if wo_status = "IN_PROGRESS" then
      match c.latest_bc with | some t => t | none => minProd0
    else minProd0
  let delivery : ℚ := match c.promised_dt with | some t => t | none => (10 : ℚ) ^ 12
  let past := pastOfScan c.lastScan
  let progress := if wo_status = "IN_PROGRESS" ∧ past = [] then "NOT_STARTED" else wo_status
  let lastEvt : Option String := c.lastEventType.map (fun et => pyUpper (et.getD ""))
  { quantity := qty
    minProdTime := minProd
    deliveryDate := delivery
    lastProcess := c.last_process
    status := progress
    pastMachines := past
    currentlyRunning := decide (progress = "IN_PROGRESS" ∧ lastEvt = some "START") }

/-- Assembly-loop body of `load_orders` in `queries_cplex.py` (timestamp
variant), with `present_time` threaded in. -/
def assembleOrderC (present : ℚ) (c : CtxC) : OrderOut :=
  let status := pyUpper (c.status.getD "")
  let qty_planned : ℚ := c.qty_planned.getD 0
  let mp1 : Option ℚ :=
    if status = "IN_PROGRESS" then
      match c.latest_bc with | some t => some t | none => c.min_prod_dt
    else c.min_prod_dt
  let minProd : ℚ :=
    match mp1 with
    | none => present
    | some a => if a < present ∧ status ≠ "IN_PROGRESS" then present else a
  let delivery : ℚ := match c.promised_dt with | some t => t | none => farFutureTs
  let past := pastOfScan c.lastScan
  let progress0 := if status = "" then "NOT_STARTED" else status
  let progress := if progress0 = "IN_PROGRESS" ∧ past = [] then "NOT_STARTED" else progress0
  let lastEvt : Option String := c.lastEventType.map (fun et => pyUpper (et.getD ""))
  let qty : ℚ :=
    if progress = "IN_PROGRESS" then
      match c.lastCompleteQty with | some q => q | none => qty_planned
    else qty_planned
  { quantity := qty
    minProdTime := minProd
    deliveryDate := delivery
    lastProcess := c.last_process
    status := progress
    pastMachines := past
    currentlyRunning := decide (progress = "IN_PROGRESS" ∧ lastEvt = some "START") }

/-! ## Downtime loaders and running-job inference -/

/-- A `workstation_downtimes` row joined with its workstation code. -/
structure DowntimeRow where
  ws_code : String
  start_dt : Option ℚ
  end_dt : Option ℚ
deriving DecidableEq

/-- Downtime table: workstation code → list of (start, end) windows. -/
abbrev DowntimeT := List (String × List (ℚ × ℚ))

/-- The fields of an order consulted by `_append_running_job_downtimes`. -/
structure OrderR where
  product : Option String
  quantity : Option ℚ
  currentlyRunning : Bool
deriving DecidableEq

/-- Most-recent-event row per work order fetched by
`_append_running_job_downtimes` (DISTINCT ON work order, newest first). -/
structure RunRow where
  wo_num : String
  event_type : Option String
  event_time : Option ℚ
  route_step_index : Option ℤ
  ws_code : Option String
deriving DecidableEq

/-- Cycle table with integer process-index keys, as consulted with
`int(route_step_index) - 1` (which may be negative). -/
abbrev CycleZ := List (ℤ × List (String × List (String × ℚ)))

/-- The `load_downtimes` of `queries.py` (numeric variant): skip rows missing a
start or an end, skip rows whose end is before `now`, append the rest. -/
def load_downtimes_basic (now : ℚ) (rows : List DowntimeRow) : DowntimeT :=
  rows.foldl
    (fun dts row =>
      match row.start_dt, row.end_dt with
      | some s, some e =>
          if e < now then dts
          else amodify dts row.ws_code [] (fun l => l ++ [(s, e)])
      | _, _ => dts)
    []

/-- Loop body of `_append_running_job_downtimes` for one most-recent-event
row: all skip guards of the source, and the projected window on success. -/
def runRowWindow (present : ℚ) (orders : List (String × OrderR)) (cycle : CycleZ)
    (row : RunRow) : Option (String × ℚ × ℚ) :=
  let event_type := pyUpper (row.event_type.getD "")
  match row.ws_code, row.event_time with
  | some ws, some start =>
    if event_type ≠ "START" ∨ ws = "" then none
    else
      let order := alookup orders row.wo_num
      match order.bind OrderR.product, order.bind OrderR.quantity with
      | some product, some qty =>
        match row.route_step_index with
        | none => none
        | some step =>
          let procIdx : ℤ := step - 1
          match (alookup cycle procIdx).bind
              (fun dp => (alookup dp product).bind (fun dw => alookup dw ws)) with
          | none => none
          | some cycle_time =>
            let expected_minutes := qty * cycle_time
            let running_minutes := if (present - start) / 60 < 0 then 0 else (present - start) / 60
            let time_left_minutes := expected_minutes - running_minutes
            if time_left_minutes ≤ 0 then none
            else some (ws, present, present + 60 * time_left_minutes)
      | _, _ => none
  | _, _ => none

/-- The function `_append_running_job_downtimes` (timestamp variant): for every
most-recent-event row that passes the guards, append the projected window to
the per-workstation downtime list. -/
def append_running_job_downtimes (present : ℚ) (orders : List (String × OrderR))
    (cycle : CycleZ) (rows : List RunRow) (downtimes : DowntimeT) : DowntimeT :=
  if orders = [] then downtimes
  else
    rows.foldl
      (fun dts row =>
        match runRowWindow present orders cycle row with
        | none => dts
        | some (ws, s, e) => amodify dts ws [] (fun l => l ++ [(s, e)]))
      downtimes

/-- The `load_downtimes` of `queries_cplex.py` (timestamp variant): skip rows
missing a start or an end, skip rows ending before present time, skip rows
starting before present time, then append the inferred running-job windows. -/
def load_downtimes_cplex (present : ℚ) (orders : List (String × OrderR))
    (cycle : CycleZ) (rows : List DowntimeRow) (erows : List RunRow) : DowntimeT :=
  let dts :=
    rows.foldl
      (fun dts row =>
        match row.start_dt, row.end_dt with
        | some s, some e =>
            if e < present then dts
            else if s < present then dts
            else amodify dts row.ws_code [] (fun l => l ++ [(s, e)])
        | _, _ => dts)
      []
  append_running_job_downtimes present orders cycle erows dts

/-- Modelled from the amended C2 claim: an inferred window is produced for a
most-recent-event row exactly when the event type (uppercased) is START, the
workstation code is present and nonempty, the event timestamp is valid, the
order resolves to a product and a quantity, the route-step position is
recorded, and the cycle-time lookup at (step − 1, product, workstation)
succeeds with positive remaining time; the window then runs from present
time to present time plus (quantity × cycle-time-per-unit minus elapsed
minutes since the event, the elapsed minutes clamped at zero). -/
def specInferredWindow (present : ℚ) (orders : List (String × OrderR))
    (cycle : CycleZ) (row : RunRow) : Option (String × ℚ × ℚ) :=
  match row.ws_code, row.event_time, row.route_step_index with
  | some ws, some start, some step =>
    match (alookup orders row.wo_num).bind OrderR.product,
        (alookup orders row.wo_num).bind OrderR.quantity with
    | some product, some qty =>
      match (alookup cycle (step - 1)).bind
          (fun dp => (alookup dp product).bind (fun dw => alookup dw ws)) with
      | some ct =>
        let remaining := qty * ct - (if (present - start) / 60 < 0 then 0 else (present - start) / 60)
        if pyUpper (row.event_type.getD "") = "START" ∧ ws ≠ "" ∧ 0 < remaining then
          some (ws, present, present + 60 * remaining)
        else none
      | none => none
    | _, _ => none
  | _, _, _ => none

/-! ## Employee-shift boundary (`_build_employee_shift`)

A `datetime` is a (day, time-of-day) pair; time-of-day is measured in integer
microseconds, `0 ≤ t < 86400000000`.  `replace(hour=19, minute=30, ...)`
keeps the day and sets the time-of-day. -/

/-- Absolute microseconds of the 19:30 boundary on day `d`. -/
def dayShiftEnd (d : ℤ) : ℤ := 86400000000 * d + 70200000000

/-- Absolute microseconds of the 07:30 boundary on day `d`. -/
def nightShiftEnd (d : ℤ) : ℤ := 86400000000 * d + 27000000000

/-- The `first_shift_end` computation of `_build_employee_shift`, for present
time on day `d` at time-of-day `t` microseconds. -/
def buildFirstShiftEnd (d t : ℤ) : ℤ :=
  let present := 86400000000 * d + t
  if present ≤ nightShiftEnd d then nightShiftEnd d
  else if present ≤ dayShiftEnd d then dayShiftEnd d
  else nightShiftEnd (d + 1)

/-- Result of appending windows `l` to an optional existing per-workstation
list: absent stays absent when nothing is appended, otherwise the existing
list (empty if absent) extended by `l`. -/
def appendOpt (prev : Option (List (ℚ × ℚ))) (l : List (ℚ × ℚ)) :
    Option (List (ℚ × ℚ)) :=
  match prev, l with
  | none, [] => none
  | prev, l => some (prev.getD [] ++ l)

/-! ## Lemmas: association lists -/

theorem alookup_amodify {K V : Type} [DecidableEq K]
    (d : List (K × V)) (k : K) (dflt : V) (f : V → V) (k' : K) :
    alookup (amodify d k dflt f) k' =
      if k' = k then some (f ((alookup d k).getD dflt)) else alookup d k' := by
  induction d with
  | nil =>
      simp only [amodify, alookup]
      by_cases h : k' = k
      · subst h; simp
      · simp [h, Ne.symm h]
  | cons hd tl ih =>
      obtain ⟨a, v⟩ := hd
      by_cases hak : a = k
      · subst hak
        by_cases hk' : k' = a
        · subst hk'; simp [amodify, alookup]
        · simp [amodify, alookup, hk', Ne.symm hk']
      · by_cases hk' : a = k'
        · subst hk'
          simp [amodify, alookup, hak, Ne.symm hak, fun h => hak h]
        · simp [amodify, alookup, hak, hk', ih]

/-! ## Lemmas: route padding -/

theorem maxLenOf_cons (r : List String) (rs : List (List String)) :
    maxLenOf (r :: rs) = max r.length (maxLenOf rs) := rfl

theorem length_le_maxLenOf {rs : List (List String)} {r : List String}
    (h : r ∈ rs) : r.length ≤ maxLenOf rs := by
  induction rs with
  | nil => cases h
  | cons hd tl ih =>
      rcases List.mem_cons.mp h with h | h
      · subst h; rw [maxLenOf_cons]; exact le_max_left _ _
      · calc r.length ≤ maxLenOf tl := ih h
          _ ≤ maxLenOf (hd :: tl) := by rw [maxLenOf_cons]; exact le_max_right _ _

theorem padRoutes_length {fake : String} {rs : List (List String)} {r' : List String}
    (h : r' ∈ padRoutes fake rs) : r'.length = maxLenOf rs := by
  simp only [padRoutes, List.mem_map] at h
  obtain ⟨r, hr, rfl⟩ := h
  have := length_le_maxLenOf hr
  simp [List.length_append, List.length_replicate]
  omega

theorem maxLenOf_le {rs : List (List String)} {c : Nat}
    (h : ∀ r ∈ rs, r.length ≤ c) : maxLenOf rs ≤ c := by
  induction rs with
  | nil => simp [maxLenOf]
  | cons hd tl ih =>
      rw [maxLenOf_cons]
      exact max_le (h hd (by simp)) (ih fun r hr => h r (by simp [hr]))

theorem padRoutes_eq_self {fake : String} {rs : List (List String)}
    (h : anyPad rs = false) : padRoutes fake rs = rs := by
  simp only [anyPad, List.any_eq_false, decide_eq_true_eq] at h
  simp only [padRoutes]
  conv_rhs => rw [← List.map_id rs]
  apply List.map_congr_left
  intro r hr
  have hnl := h r hr
  have : maxLenOf rs - r.length = 0 := by omega
  simp [this]

theorem anyPad_of_all_eq {rs : List (List String)} {c : Nat}
    (h : ∀ r ∈ rs, r.length = c) : anyPad rs = false := by
  simp only [anyPad, List.any_eq_false, decide_eq_true_eq]
  intro r hr
  have hmax : maxLenOf rs ≤ c := maxLenOf_le (fun r' hr' => (h r' hr').le)
  have := h r hr
  omega

theorem mem_paddedIdxs {i : Nat} {rs : List (List String)} :
    i ∈ paddedIdxs rs ↔ i < maxLenOf rs ∧ ∃ r ∈ rs, r.length ≤ i := by
  simp [paddedIdxs, List.mem_filter, List.mem_range, List.any_eq_true, and_comm]

theorem anyPad_of_mem_paddedIdxs {i : Nat} {rs : List (List String)}
    (h : i ∈ paddedIdxs rs) : anyPad rs = true := by
  rw [mem_paddedIdxs] at h
  obtain ⟨hlt, r, hr, hle⟩ := h
  simp only [anyPad, List.any_eq_true, decide_eq_true_eq]
  exact ⟨r, hr, by omega⟩

theorem padSparseGo_bom (fake : String) (fc fm : ℚ) :
    ∀ (bom : BomT) (cy : CycleT) (mi : MiniT),
      (padSparseGo fake fc fm cy mi bom).2.2 =
        bom.map (fun e => (e.1, padRoutes fake e.2)) := by
  intro bom
  induction bom with
  | nil => intro cy mi; rfl
  | cons hd rest ih =>
      intro cy mi
      obtain ⟨p, rs⟩ := hd
      by_cases h : anyPad rs
      · simp [padSparseGo, h, ih]
      · simp [padSparseGo, h, ih]

theorem padSparseGo_noPad (fake : String) (fc fm : ℚ) :
    ∀ (bom : BomT) (cy : CycleT) (mi : MiniT),
      (∀ e ∈ bom, anyPad e.2 = false) →
        padSparseGo fake fc fm cy mi bom = (cy, mi, bom) := by
  intro bom
  induction bom with
  | nil => intro cy mi _; rfl
  | cons hd rest ih =>
      intro cy mi h
      obtain ⟨p, rs⟩ := hd
      have hhd : anyPad rs = false := h (p, rs) (by simp)
      have hrest := ih cy mi (fun e he => h e (by simp [he]))
      simp [padSparseGo, hhd, hrest, padRoutes_eq_self hhd]

/-! ## Lemmas: tracking sentinel bindings through the injections -/

theorem cycleFakeAt_eq (cy : CycleT) (i : Nat) (p fake : String) :
    cycleFakeAt cy i p fake =
      (alookup ((alookup ((alookup cy i).getD []) p).getD []) fake).isSome := by
  unfold cycleFakeAt
  rcases h1 : alookup cy i with _ | dp
  · simp [alookup]
  · rcases h2 : alookup dp p with _ | dw
    · simp [h2, alookup]
    · simp [h2]

theorem miniFakeAt_eq (mi : MiniT) (p fake : String) :
    miniFakeAt mi p fake =
      (alookup ((alookup mi p).getD []) fake).isSome := by
  unfold miniFakeAt
  rcases h1 : alookup mi p with _ | dw
  · simp [alookup]
  · simp

theorem alookup_dsetdefault_self {K V : Type} [DecidableEq K]
    (d : List (K × V)) (k : K) (v : V) :
    alookup (dsetdefault d k v) k = some ((alookup d k).getD v) := by
  rw [dsetdefault, alookup_amodify]
  simp

theorem cycleFakeAt_inject (cy : CycleT) (i' : Nat) (p' fake : String) (fc : ℚ)
    (i : Nat) (p : String) :
    cycleFakeAt (cycleInject cy i' p' fake fc) i p fake =
      if i = i' ∧ p = p' then true else cycleFakeAt cy i p fake := by
  rw [cycleFakeAt_eq, cycleFakeAt_eq, cycleInject, alookup_amodify]
  by_cases hi : i = i'
  · subst hi
    rw [if_pos rfl]
    simp only [Option.getD_some]
    rw [alookup_amodify]
    by_cases hp : p = p'
    · subst hp
      simp [alookup_dsetdefault_self]
    · simp [hp]
  · simp [hi]

theorem miniFakeAt_inject (mi : MiniT) (p' fake : String) (fm : ℚ) (p : String) :
    miniFakeAt (miniInject mi p' fake fm) p fake =
      if p = p' then true else miniFakeAt mi p fake := by
  rw [miniFakeAt_eq, miniFakeAt_eq, miniInject, alookup_amodify]
  by_cases hp : p = p'
  · subst hp
    rw [if_pos rfl]
    simp only [Option.getD_some]
    simp [alookup_dsetdefault_self]
  · simp [hp]

theorem cycleFakeAt_foldl (L : List Nat) (p' fake : String) (fc : ℚ)
    (i : Nat) (p : String) :
    ∀ cy : CycleT,
      (cycleFakeAt (L.foldl (fun c j => cycleInject c j p' fake fc) cy) i p fake = true ↔
        cycleFakeAt cy i p fake = true ∨ (p = p' ∧ i ∈ L)) := by
  induction L with
  | nil => intro cy; simp
  | cons j L ih =>
      intro cy
      rw [List.foldl_cons, ih, cycleFakeAt_inject]
      by_cases hij : i = j ∧ p = p'
      · simp [hij, hij.1, hij.2]
      · rw [if_neg hij]
        constructor
        · rintro (h | h)
          · exact Or.inl h
          · exact Or.inr ⟨h.1, by simp [h.2]⟩
        · rintro (h | ⟨hp, hmem⟩)
          · exact Or.inl h
          · rcases List.mem_cons.mp hmem with rfl | hmem
            · exact absurd ⟨rfl, hp⟩ hij
            · exact Or.inr ⟨hp, hmem⟩

theorem padSparseGo_cycleFake (fake : String) (fc fm : ℚ) (i : Nat) (p : String) :
    ∀ (bom : BomT) (cy : CycleT) (mi : MiniT),
      (cycleFakeAt (padSparseGo fake fc fm cy mi bom).1 i p fake = true ↔
        cycleFakeAt cy i p fake = true ∨ ∃ rs, (p, rs) ∈ bom ∧ i ∈ paddedIdxs rs) := by
  intro bom
  induction bom with
  | nil => intro cy mi; simp [padSparseGo]
  | cons hd rest ih =>
      intro cy mi
      obtain ⟨p0, rs0⟩ := hd
      by_cases h : anyPad rs0
      · rw [show (padSparseGo fake fc fm cy mi ((p0, rs0) :: rest)).1 =
              (padSparseGo fake fc fm
                ((paddedIdxs rs0).foldl (fun c i => cycleInject c i p0 fake fc) cy)
                (miniInject mi p0 fake fm) rest).1 by simp [padSparseGo, h]]
        rw [ih, cycleFakeAt_foldl]
        constructor
        · rintro ((hc | ⟨hp, hmem⟩) | ⟨rs, hrs, hmem⟩)
          · exact Or.inl hc
          · exact Or.inr ⟨rs0, by simp [hp], hmem⟩
          · exact Or.inr ⟨rs, by simp [hrs], hmem⟩
        · rintro (hc | ⟨rs, hrs, hmem⟩)
          · exact Or.inl (Or.inl hc)
          · rcases List.mem_cons.mp hrs with heq | hrs
            · have hp : p = p0 := congrArg Prod.fst heq
              have hr : rs = rs0 := congrArg Prod.snd heq
              subst hr
              exact Or.inl (Or.inr ⟨hp, hmem⟩)
            · exact Or.inr ⟨rs, hrs, hmem⟩
      · rw [show (padSparseGo fake fc fm cy mi ((p0, rs0) :: rest)).1 =
              (padSparseGo fake fc fm cy mi rest).1 by simp [padSparseGo, h]]
        rw [ih]
        constructor
        · rintro (hc | ⟨rs, hrs, hmem⟩)
          · exact Or.inl hc
          · exact Or.inr ⟨rs, by simp [hrs], hmem⟩
        · rintro (hc | ⟨rs, hrs, hmem⟩)
          · exact Or.inl hc
          · rcases List.mem_cons.mp hrs with heq | hrs
            · have hr : rs = rs0 := congrArg Prod.snd heq
              subst hr
              exact absurd (anyPad_of_mem_paddedIdxs hmem) (by simp [h])
            · exact Or.inr ⟨rs, hrs, hmem⟩

theorem padSparseGo_miniFake (fake : String) (fc fm : ℚ) (p : String) :
    ∀ (bom : BomT) (cy : CycleT) (mi : MiniT),
      (miniFakeAt (padSparseGo fake fc fm cy mi bom).2.1 p fake = true ↔
        miniFakeAt mi p fake = true ∨ ∃ rs, (p, rs) ∈ bom ∧ anyPad rs = true) := by
  intro bom
  induction bom with
  | nil => intro cy mi; simp [padSparseGo]
  | cons hd rest ih =>
      intro cy mi
      obtain ⟨p0, rs0⟩ := hd
      by_cases h : anyPad rs0
      · rw [show (padSparseGo fake fc fm cy mi ((p0, rs0) :: rest)).2.1 =
              (padSparseGo fake fc fm
                ((paddedIdxs rs0).foldl (fun c i => cycleInject c i p0 fake fc) cy)
                (miniInject mi p0 fake fm) rest).2.1 by simp [padSparseGo, h]]
        rw [ih, miniFakeAt_inject]
        by_cases hp : p = p0
        · subst hp
          simp [h]
        · rw [if_neg hp]
          constructor
          · rintro (hc | ⟨rs, hrs, hpad⟩)
            · exact Or.inl hc
            · exact Or.inr ⟨rs, by simp [hrs], hpad⟩
          · rintro (hc | ⟨rs, hrs, hpad⟩)
            · exact Or.inl hc
            · rcases List.mem_cons.mp hrs with heq | hrs
              · exact absurd (congrArg Prod.fst heq) hp
              · exact Or.inr ⟨rs, hrs, hpad⟩
      · rw [show (padSparseGo fake fc fm cy mi ((p0, rs0) :: rest)).2.1 =
              (padSparseGo fake fc fm cy mi rest).2.1 by simp [padSparseGo, h]]
        rw [ih]
        constructor
        · rintro (hc | ⟨rs, hrs, hpad⟩)
          · exact Or.inl hc
          · exact Or.inr ⟨rs, by simp [hrs], hpad⟩
        · rintro (hc | ⟨rs, hrs, hpad⟩)
          · exact Or.inl hc
          · rcases List.mem_cons.mp hrs with heq | hrs
            · have hr : rs = rs0 := congrArg Prod.snd heq
              subst hr
              exact absurd hpad (by simp [h])
            · exact Or.inr ⟨rs, hrs, hpad⟩

theorem forall₂_map_self {α β : Type} (f : α → β) :
    ∀ l : List α, List.Forall₂ (fun a b => b = f a) l (l.map f)
  | [] => List.Forall₂.nil
  | _ :: l => List.Forall₂.cons rfl (forall₂_map_self f l)

/-! ## Claim theorems: route normalizer -/

/-- C3: after the route normalizer runs, every product's entry in the route
table is its original route list with each route padded by the sentinel code:
all of the product's routes have equal length, that common length is the
pre-normalization maximum route length, and each original route is preserved
as a prefix (only sentinel codes are appended, so no route is shortened). -/
theorem routes_equal_length_after_pad
    (fake : String) (fc fm : ℚ) (cy : CycleT) (mi : MiniT) (bom : BomT)
    (p : String) (rs : List (List String)) (h : (p, rs) ∈ bom) :
    (p, padRoutes fake rs) ∈ (padSparse fake fc fm cy mi bom).2.2
    ∧ (∀ r' ∈ padRoutes fake rs, r'.length = maxLenOf rs)
    ∧ List.Forall₂
        (fun r r' => r' = r ++ List.replicate (maxLenOf rs - r.length) fake)
        rs (padRoutes fake rs) := by
  refine ⟨?_, fun r' h' => padRoutes_length h', forall₂_map_self _ rs⟩
  rw [padSparse, padSparseGo_bom]
  exact List.mem_map.mpr ⟨(p, rs), h, rfl⟩

/-- Witness for C3 at the spec's scenario: product P1 with routes of lengths
3 and 5; after normalization both have length 5 and the shorter route is its
original prefix followed by two sentinel codes. -/
theorem routes_equal_length_after_pad_witness :
    ("P1", padRoutes "FAKE" [["A", "B", "C"], ["A", "B", "C", "D", "E"]]) ∈
        (padSparse "FAKE" (1/100) 100 [] []
          [("P1", [["A", "B", "C"], ["A", "B", "C", "D", "E"]])]).2.2
    ∧ (∀ r' ∈ padRoutes "FAKE" [["A", "B", "C"], ["A", "B", "C", "D", "E"]],
        r'.length = maxLenOf [["A", "B", "C"], ["A", "B", "C", "D", "E"]])
    ∧ List.Forall₂
        (fun r r' => r' = r ++ List.replicate
          (maxLenOf [["A", "B", "C"], ["A", "B", "C", "D", "E"]] - r.length) "FAKE")
        [["A", "B", "C"], ["A", "B", "C", "D", "E"]]
        (padRoutes "FAKE" [["A", "B", "C"], ["A", "B", "C", "D", "E"]]) :=
  routes_equal_length_after_pad "FAKE" (1/100) 100 [] [] _ "P1"
    [["A", "B", "C"], ["A", "B", "C", "D", "E"]] (by simp)

/-- C5: the route normalizer is idempotent: applying
`_pad_boms_and_inject_fake_defaults_sparse` to its own output returns that
output unchanged (routes already have equal lengths, so no route is padded
and no sentinel default is injected a second time). -/
theorem pad_sparse_idempotent
    (fake : String) (fc fm : ℚ) (cy : CycleT) (mi : MiniT) (bom : BomT) :
    padSparse fake fc fm (padSparse fake fc fm cy mi bom).1
        (padSparse fake fc fm cy mi bom).2.1 (padSparse fake fc fm cy mi bom).2.2 =
      padSparse fake fc fm cy mi bom := by
  have hbom : (padSparse fake fc fm cy mi bom).2.2 =
      bom.map (fun e => (e.1, padRoutes fake e.2)) := padSparseGo_bom fake fc fm bom cy mi
  have hnp : ∀ e ∈ (padSparse fake fc fm cy mi bom).2.2, anyPad e.2 = false := by
    rw [hbom]
    intro e he
    rcases List.mem_map.mp he with ⟨⟨p0, rs0⟩, _, rfl⟩
    exact anyPad_of_all_eq (fun r hr => padRoutes_length hr)
  rw [padSparse, padSparseGo_noPad fake fc fm _ _ _ hnp]

/-- C4: sentinel-workstation defaults are injected sparsely.  Provided the
input cycle and minimum-batch tables contain no sentinel binding at the
probed keys (the sentinel is a reserved code, never a genuine workstation),
then after normalization the cycle table has a sentinel binding at
(process index, product) exactly when some route of that product was padded
at that index — the index is at or beyond that route's original length and
below the product's maximum route length — and the minimum-batch table has a
sentinel binding for a product exactly when at least one of its routes was
padded.  A product requiring no padding gets no sentinel entries. -/
theorem sentinel_injection_sparse
    (fake : String) (fc fm : ℚ) (cy : CycleT) (mi : MiniT) (bom : BomT)
    (i : Nat) (p : String)
    (hcy : cycleFakeAt cy i p fake = false) (hmi : miniFakeAt mi p fake = false) :
    (cycleFakeAt (padSparse fake fc fm cy mi bom).1 i p fake = true ↔
      ∃ rs, (p, rs) ∈ bom ∧ i < maxLenOf rs ∧ ∃ r ∈ rs, r.length ≤ i)
    ∧ (miniFakeAt (padSparse fake fc fm cy mi bom).2.1 p fake = true ↔
      ∃ rs, (p, rs) ∈ bom ∧ anyPad rs = true) := by
  constructor
  · rw [padSparse, padSparseGo_cycleFake, hcy]
    simp only [Bool.false_eq_true, false_or]
    constructor
    · rintro ⟨rs, hrs, hmem⟩
      exact ⟨rs, hrs, mem_paddedIdxs.mp hmem⟩
    · rintro ⟨rs, hrs, hlt, hex⟩
      exact ⟨rs, hrs, mem_paddedIdxs.mpr ⟨hlt, hex⟩⟩
  · rw [padSparse, padSparseGo_miniFake, hmi]
    simp

/-- Witness for C4: product P1 with routes of lengths 3 and 5 starting from
empty tables; after normalization the cycle table holds a sentinel binding
at process index 3 and the minimum-batch table holds one for P1. -/
theorem sentinel_injection_sparse_witness :
    cycleFakeAt
        (padSparse "FAKE" (1/100) 100 [] []
          [("P1", [["A", "B", "C"], ["A", "B", "C", "D", "E"]])]).1 3 "P1" "FAKE" = true
    ∧ miniFakeAt
        (padSparse "FAKE" (1/100) 100 [] []
          [("P1", [["A", "B", "C"], ["A", "B", "C", "D", "E"]])]).2.1 "P1" "FAKE" = true := by
  have h := sentinel_injection_sparse "FAKE" (1/100) 100 [] []
    [("P1", [["A", "B", "C"], ["A", "B", "C", "D", "E"]])] 3 "P1" (by decide) (by decide)
  exact ⟨h.1.mpr ⟨[["A", "B", "C"], ["A", "B", "C", "D", "E"]], by simp, by decide,
      ["A", "B", "C"], by simp, by decide⟩,
    h.2.mpr ⟨[["A", "B", "C"], ["A", "B", "C", "D", "E"]], by simp, by decide⟩⟩

/-! ## Claim theorems: order state reconciliation -/

/-- C6: in both variants of `load_orders`, an eligible order (stored status
NOT_STARTED or IN_PROGRESS) whose stored status is IN_PROGRESS but whose
derived past-machines trail is empty is reported with status NOT_STARTED;
otherwise the stored status is reported unchanged. -/
theorem in_progress_without_trail_downgraded
    (cN : CtxN) (present : ℚ) (cC : CtxC)
    (hN : cN.status = some "NOT_STARTED" ∨ cN.status = some "IN_PROGRESS")
    (hC : cC.status = some "NOT_STARTED" ∨ cC.status = some "IN_PROGRESS") :
    ((assembleOrderN cN).status =
      if cN.status = some "IN_PROGRESS" ∧ pastOfScan cN.lastScan = []
      then "NOT_STARTED" else cN.status.getD "")
    ∧ ((assembleOrderC present cC).status =
      if cC.status = some "IN_PROGRESS" ∧ pastOfScan cC.lastScan = []
      then "NOT_STARTED" else cC.status.getD "") := by
  have eNS : pyUpper (pyStrip "NOT_STARTED") = "NOT_STARTED" := by decide
  have eIP : pyUpper (pyStrip "IN_PROGRESS") = "IN_PROGRESS" := by decide
  have eNS' : pyUpper "NOT_STARTED" = "NOT_STARTED" := by decide
  have eIP' : pyUpper "IN_PROGRESS" = "IN_PROGRESS" := by decide
  have ne1 : ("NOT_STARTED" : String) ≠ "IN_PROGRESS" := by decide
  have ne2 : ("NOT_STARTED" : String) ≠ "" := by decide
  have ne3 : ("IN_PROGRESS" : String) ≠ "" := by decide
  constructor
  · rcases hN with h | h
    · simp [assembleOrderN, h, eNS, ne1]
    · by_cases hpast : pastOfScan cN.lastScan = []
      · simp [assembleOrderN, h, eIP, hpast]
      · simp [assembleOrderN, h, eIP, hpast]
  · rcases hC with h | h
    · simp [assembleOrderC, h, eNS', ne1, ne2]
    · by_cases hpast : pastOfScan cC.lastScan = []
      · simp [assembleOrderC, h, eIP', ne3, hpast]
      · simp [assembleOrderC, h, eIP', ne3, hpast]

/-- Witness for C6: an IN_PROGRESS order whose most recent scan event lacks a
workstation yields an empty trail and is downgraded to NOT_STARTED, in both
variants. -/
theorem in_progress_without_trail_downgraded_witness :
    (assembleOrderN
        ⟨some "IN_PROGRESS", some 5, none, some 1, none, none,
          some (none, some 2), none⟩).status = "NOT_STARTED"
    ∧ (assembleOrderC 42
        ⟨some "IN_PROGRESS", some 5, none, some 1, none, none,
          some (none, some 2), none, none⟩).status = "NOT_STARTED" := by
  have h := in_progress_without_trail_downgraded
    ⟨some "IN_PROGRESS", some 5, none, some 1, none, none, some (none, some 2), none⟩
    42
    ⟨some "IN_PROGRESS", some 5, none, some 1, none, none, some (none, some 2), none, none⟩
    (Or.inr rfl) (Or.inr rfl)
  rw [h.1, h.2]
  constructor <;> decide

/-- C7: in both variants of `load_orders`, the Currently Running flag is true
exactly when the derived status is IN_PROGRESS and the most recent scan
event's type (uppercased) is START; in particular it is never true when the
derived status is not IN_PROGRESS. -/
theorem currently_running_iff (cN : CtxN) (present : ℚ) (cC : CtxC) :
    ((assembleOrderN cN).currentlyRunning = true ↔
      (assembleOrderN cN).status = "IN_PROGRESS" ∧
        cN.lastEventType.map (fun et => pyUpper (et.getD "")) = some "START")
    ∧ ((assembleOrderC present cC).currentlyRunning = true ↔
      (assembleOrderC present cC).status = "IN_PROGRESS" ∧
        cC.lastEventType.map (fun et => pyUpper (et.getD "")) = some "START") := by
  constructor
  · simp [assembleOrderN]
  · simp [assembleOrderC]

/-- C8: in both variants of `load_orders`, the Minimum Production Time of an
eligible order is the stored anchor, overridden by the most recent scan
event's timestamp when the stored status is IN_PROGRESS and such an event
exists; when no anchor results it defaults to epoch zero in the numeric
variant and to present time in the timestamp variant; and the timestamp
variant clamps an anchor earlier than present time up to present time for
orders that are not IN_PROGRESS, while IN_PROGRESS orders keep a past
anchor. -/
theorem min_prod_time_derivation
    (cN : CtxN) (present : ℚ) (cC : CtxC)
    (hN : cN.status = some "NOT_STARTED" ∨ cN.status = some "IN_PROGRESS")
    (hC : cC.status = some "NOT_STARTED" ∨ cC.status = some "IN_PROGRESS") :
    ((∀ t, cN.status = some "IN_PROGRESS" → cN.latest_bc = some t →
        (assembleOrderN cN).minProdTime = t)
     ∧ (∀ a, (cN.status = some "NOT_STARTED" ∨ cN.latest_bc = none) →
        cN.min_prod_dt = some a → (assembleOrderN cN).minProdTime = a)
     ∧ ((cN.status = some "NOT_STARTED" ∨ cN.latest_bc = none) →
        cN.min_prod_dt = none → (assembleOrderN cN).minProdTime = 0))
    ∧ ((∀ t, cC.status = some "IN_PROGRESS" → cC.latest_bc = some t →
        (assembleOrderC present cC).minProdTime = t)
     ∧ (∀ a, cC.status = some "IN_PROGRESS" → cC.latest_bc = none →
        cC.min_prod_dt = some a → (assembleOrderC present cC).minProdTime = a)
     ∧ (∀ a, cC.status = some "NOT_STARTED" → cC.min_prod_dt = some a →
        (assembleOrderC present cC).minProdTime = max a present)
     ∧ ((cC.min_prod_dt = none ∧ (cC.status = some "NOT_STARTED" ∨ cC.latest_bc = none)) →
        (assembleOrderC present cC).minProdTime = present)) := by
  have eNS : pyUpper (pyStrip "NOT_STARTED") = "NOT_STARTED" := by decide
  have eIP : pyUpper (pyStrip "IN_PROGRESS") = "IN_PROGRESS" := by decide
  have eNS' : pyUpper "NOT_STARTED" = "NOT_STARTED" := by decide
  have eIP' : pyUpper "IN_PROGRESS" = "IN_PROGRESS" := by decide
  have ne1 : ("NOT_STARTED" : String) ≠ "IN_PROGRESS" := by decide
  refine ⟨⟨?_, ?_, ?_⟩, ?_, ?_, ?_, ?_⟩
  · intro t hst hbc
    simp [assembleOrderN, hst, hbc, eIP]
  · intro a hor hmp
    rcases hor with hst | hbc
    · simp [assembleOrderN, hst, hmp, eNS, ne1]
    · rcases hN with hst | hst
      · simp [assembleOrderN, hst, hmp, eNS, ne1]
      · simp [assembleOrderN, hst, hbc, hmp, eIP]
  · intro hor hmp
    rcases hor with hst | hbc
    · simp [assembleOrderN, hst, hmp, eNS, ne1]
    · rcases hN with hst | hst
      · simp [assembleOrderN, hst, hmp, eNS, ne1]
      · simp [assembleOrderN, hst, hbc, hmp, eIP]
  · intro t hst hbc
    simp [assembleOrderC, hst, hbc, eIP']
  · intro a hst hbc hmp
    simp [assembleOrderC, hst, hbc, hmp, eIP']
  · intro a hst hmp
    rcases le_or_lt present a with hle | hlt
    · rw [max_eq_left hle]
      simp [assembleOrderC, hst, hmp, eNS', ne1, not_lt.mpr hle]
    · rw [max_eq_right hlt.le]
      simp [assembleOrderC, hst, hmp, eNS', ne1, hlt]
  · rintro ⟨hmp, hor⟩
    rcases hor with hst | hbc
    · simp [assembleOrderC, hst, hmp, eNS', ne1]
    · rcases hC with hst | hst
      · simp [assembleOrderC, hst, hmp, eNS', ne1]
      · simp [assembleOrderC, hst, hbc, hmp, eIP']

/-- Witness for C8: an IN_PROGRESS order in the numeric variant takes the
latest scan-event timestamp; a NOT_STARTED order in the timestamp variant
with a past anchor is clamped up to present time. -/
theorem min_prod_time_derivation_witness :
    (assembleOrderN
        ⟨some "IN_PROGRESS", some 50, none, some 1, some 77, none,
          some (some "M7", some 2), some (some "START")⟩).minProdTime = 77
    ∧ (assembleOrderC 100
        ⟨some "NOT_STARTED", some 50, none, some 1, none, none,
          none, none, none⟩).minProdTime = max 50 100 := by
  have h := min_prod_time_derivation
    ⟨some "IN_PROGRESS", some 50, none, some 1, some 77, none,
      some (some "M7", some 2), some (some "START")⟩
    100
    ⟨some "NOT_STARTED", some 50, none, some 1, none, none, none, none, none⟩
    (Or.inr rfl) (Or.inl rfl)
  exact ⟨h.1.1 77 rfl rfl, h.2.2.2.1 50 rfl rfl⟩

/-! ## Claim theorems: downtime loaders -/

/-- C1 evidence: the numeric-variant downtime loader keeps an ongoing window
(start before present time, end after it), although its own documentation
says such windows are skipped; the timestamp variant drops the same window.
Failing input: present time 1000, one downtime row on M1 with start 0 and
end 2000. -/
theorem basic_downtime_keeps_ongoing_window :
    load_downtimes_basic 1000 [⟨"M1", some 0, some 2000⟩] = [("M1", [(0, 2000)])]
    ∧ load_downtimes_cplex 1000 [] [] [⟨"M1", some 0, some 2000⟩] [] = [] := by
  constructor
  · decide
  · decide

/-! ## Lemmas: running-job window inference -/

theorem appendOpt_nil (prev : Option (List (ℚ × ℚ))) : appendOpt prev [] = prev := by
  cases prev <;> simp [appendOpt]

theorem appendOpt_some (q : List (ℚ × ℚ)) (l : List (ℚ × ℚ)) :
    appendOpt (some q) l = some (q ++ l) := rfl

theorem appendOpt_cons (prev : Option (List (ℚ × ℚ))) (x : ℚ × ℚ) (l : List (ℚ × ℚ)) :
    appendOpt prev (x :: l) = appendOpt (some (prev.getD [] ++ [x])) l := by
  cases prev <;> simp [appendOpt]

theorem mem_appendOpt {prev : Option (List (ℚ × ℚ))} {l : List (ℚ × ℚ)} {x : ℚ × ℚ}
    (h : x ∈ (appendOpt prev l).getD []) : x ∈ prev.getD [] ∨ x ∈ l := by
  cases prev with
  | none =>
      cases l with
      | nil => simp [appendOpt] at h
      | cons y l =>
          refine Or.inr ?_
          simpa [appendOpt] using h
  | some q =>
      have h' : x ∈ q ++ l := by simpa [appendOpt] using h
      simpa using List.mem_append.mp h'

theorem runRowWindow_eq_spec (present : ℚ) (orders : List (String × OrderR))
    (cycle : CycleZ) (row : RunRow) :
    runRowWindow present orders cycle row = specInferredWindow present orders cycle row := by
  obtain ⟨wo, et, time, step, ws⟩ := row
  rcases ws with _ | ws
  · rcases time with _ | time <;> rcases step with _ | step <;> rfl
  rcases time with _ | time
  · rcases step with _ | step <;> rfl
  simp only [runRowWindow, specInferredWindow]
  rcases step with _ | step
  · by_cases hg : pyUpper (et.getD "") ≠ "START" ∨ ws = ""
    · rw [if_pos hg]
    · rw [if_neg hg]
      rcases hp : (alookup orders wo).bind OrderR.product with _ | product <;>
        rcases hq : (alookup orders wo).bind OrderR.quantity with _ | qty <;>
        simp [hp, hq]
  · rcases hp : (alookup orders wo).bind OrderR.product with _ | product <;>
      rcases hq : (alookup orders wo).bind OrderR.quantity with _ | qty
    · by_cases hg : pyUpper (et.getD "") ≠ "START" ∨ ws = "" <;> simp [hg, hp, hq]
    · by_cases hg : pyUpper (et.getD "") ≠ "START" ∨ ws = "" <;> simp [hg, hp, hq]
    · by_cases hg : pyUpper (et.getD "") ≠ "START" ∨ ws = "" <;> simp [hg, hp, hq]
    · rcases hc : (alookup cycle (step - 1)).bind
          (fun dp => (alookup dp product).bind (fun dw => alookup dw ws)) with _ | ct
      · by_cases hg : pyUpper (et.getD "") ≠ "START" ∨ ws = "" <;> simp [hg, hp, hq, hc]
      · simp only [hp, hq, hc]
        by_cases hg : pyUpper (et.getD "") ≠ "START" ∨ ws = ""
        · have hno : ¬ (pyUpper (et.getD "") = "START" ∧ ws ≠ "" ∧
              0 < qty * ct -
                (if (present - time) / 60 < 0 then 0 else (present - time) / 60)) := by
            rintro ⟨h1, h2, _⟩
            rcases hg with hg | hg
            · exact hg h1
            · exact h2 hg
          rw [if_pos hg, if_neg hno]
        · rw [if_neg hg]
          rw [not_or, not_ne_iff] at hg
          obtain ⟨hA, hB⟩ := hg
          by_cases hr : qty * ct -
              (if (present - time) / 60 < 0 then 0 else (present - time) / 60) ≤ 0
          · have hno : ¬ (pyUpper (et.getD "") = "START" ∧ ws ≠ "" ∧
                0 < qty * ct -
                  (if (present - time) / 60 < 0 then 0 else (present - time) / 60)) :=
              fun hcond => absurd hcond.2.2 (not_lt.mpr hr)
            rw [if_pos hr, if_neg hno]
          · have hyes : pyUpper (et.getD "") = "START" ∧ ws ≠ "" ∧
                0 < qty * ct -
                  (if (present - time) / 60 < 0 then 0 else (present - time) / 60) :=
              ⟨hA, hB, not_le.mp hr⟩
            rw [if_neg hr, if_pos hyes]

theorem specInferredWindow_empty_orders (present : ℚ) (cycle : CycleZ) (row : RunRow) :
    specInferredWindow present [] cycle row = none := by
  obtain ⟨wo, et, time, step, ws⟩ := row
  rcases ws with _ | ws <;> rcases time with _ | time <;> rcases step with _ | step <;> rfl

theorem append_running_lookup (present : ℚ) (orders : List (String × OrderR))
    (cycle : CycleZ) :
    ∀ (rows : List RunRow) (dts : DowntimeT) (ws : String),
      alookup (rows.foldl (fun dts row =>
          match runRowWindow present orders cycle row with
          | none => dts
          | some (w, s, e) => amodify dts w [] (fun l => l ++ [(s, e)])) dts) ws
        = appendOpt (alookup dts ws)
            (((rows.filterMap (specInferredWindow present orders cycle)).filter
                (fun w => w.1 = ws)).map (fun w => w.2)) := by
  intro rows
  induction rows with
  | nil => intro dts ws; simp [appendOpt_nil]
  | cons row rest ih =>
      intro dts ws
      rcases h : specInferredWindow present orders cycle row with _ | ⟨w, s, e⟩
      · have h' : runRowWindow present orders cycle row = none := by
          rw [runRowWindow_eq_spec, h]
        simp only [List.foldl_cons, h', List.filterMap_cons, h]
        exact ih dts ws
      · have h' : runRowWindow present orders cycle row = some (w, s, e) := by
          rw [runRowWindow_eq_spec, h]
        simp only [List.foldl_cons, h', List.filterMap_cons, h]
        rw [ih, alookup_amodify]
        by_cases hw : ws = w
        · subst hw
          rw [if_pos rfl]
          rw [List.filter_cons_of_pos (by simp)]
          simp only [List.map_cons]
          rw [appendOpt_cons]
        · rw [if_neg hw]
          rw [List.filter_cons_of_neg (by simp [Ne.symm hw])]

theorem append_running_alookup
    (present : ℚ) (orders : List (String × OrderR)) (cycle : CycleZ)
    (rows : List RunRow) (dts : DowntimeT) (ws : String) :
    alookup (append_running_job_downtimes present orders cycle rows dts) ws
      = appendOpt (alookup dts ws)
          (((rows.filterMap (specInferredWindow present orders cycle)).filter
              (fun w => w.1 = ws)).map (fun w => w.2)) := by
  unfold append_running_job_downtimes
  by_cases ho : orders = []
  · rw [if_pos ho]
    subst ho
    have hnil : rows.filterMap (specInferredWindow present [] cycle) = [] := by
      induction rows with
      | nil => rfl
      | cons r rest ih => rw [List.filterMap_cons, specInferredWindow_empty_orders]; exact ih
    rw [hnil]
    simp [appendOpt_nil]
  · rw [if_neg ho]
    exact append_running_lookup present orders cycle rows dts ws

/-- C2 (amended): in the timestamp variant, an inferred machine-busy window
is appended exactly for the most-recent-event rows — of any order in the
orders table, whether or not it is flagged as currently running — whose
event type is START with a nonempty workstation code, a valid timestamp and
a recorded route-step position, whose order resolves to a product and
quantity, whose cycle-time lookup at (step − 1, product, workstation)
succeeds, and whose remaining time (quantity × cycle-time-per-unit minus
elapsed minutes since the event, elapsed clamped at zero) is positive; the
window runs from present time to present time plus the remaining minutes. -/
theorem append_running_job_downtimes_characterization
    (present : ℚ) (orders : List (String × OrderR)) (cycle : CycleZ)
    (rows : List RunRow) (dts : DowntimeT) (ws : String) :
    alookup (append_running_job_downtimes present orders cycle rows dts) ws
      = appendOpt (alookup dts ws)
          (((rows.filterMap (specInferredWindow present orders cycle)).filter
              (fun w => w.1 = ws)).map (fun w => w.2)) :=
  append_running_alookup present orders cycle rows dts ws

/-- Counterexample to C2 as stated: an order whose Currently Running flag is
false (here: an order with a START as most recent event but not flagged
running) still receives an inferred downtime window — the running flag is
never consulted. -/
theorem append_running_ignores_running_flag :
    alookup (append_running_job_downtimes 100
        [("WO1", ⟨some "P", some 10, false⟩)]
        [(0, [("P", [("M1", 2)])])]
        [⟨"WO1", some "START", some 100, some 1, some "M1"⟩] []) "M1"
      = some [(100, 1300)]
    ∧ (alookup [("WO1", (⟨some "P", some 10, false⟩ : OrderR))] "WO1").map
        OrderR.currentlyRunning = some false := by
  constructor
  · norm_num [append_running_job_downtimes, runRowWindow, alookup, amodify, pyUpper]
  · rfl

/-- C10: every window appended by `_append_running_job_downtimes` (i.e. in
the output but not already in the input table) starts exactly at present
time and has strictly positive duration of at most the expected processing
time 60·(quantity × cycle-time-per-unit) seconds; when the START event is
timestamped at or after present time the elapsed clamp makes the duration
exactly the full expected time, never longer. -/
theorem inferred_window_duration_bounds
    (present : ℚ) (orders : List (String × OrderR)) (cycle : CycleZ)
    (rows : List RunRow) (dts : DowntimeT) (ws : String) (s e : ℚ)
    (hmem : (s, e) ∈
      ((alookup (append_running_job_downtimes present orders cycle rows dts) ws).getD []))
    (hnew : (s, e) ∉ ((alookup dts ws).getD [])) :
    s = present ∧ 0 < e - s ∧
    ∃ row ∈ rows, ∃ start product qty ct,
      row.event_time = some start ∧
      (alookup orders row.wo_num).bind OrderR.product = some product ∧
      (alookup orders row.wo_num).bind OrderR.quantity = some qty ∧
      (∃ step, row.route_step_index = some step ∧
        (alookup cycle (step - 1)).bind
          (fun dp => (alookup dp product).bind (fun dw => alookup dw ws)) = some ct) ∧
      e - s ≤ 60 * (qty * ct) ∧
      (present ≤ start → e - s = 60 * (qty * ct)) := by
  rw [append_running_alookup] at hmem
  rcases mem_appendOpt hmem with hold | hL
  · exact absurd hold hnew
  · simp only [List.mem_map] at hL
    obtain ⟨w, hwfilter, hw2⟩ := hL
    have hw1 : w.1 = ws := by
      have := List.of_mem_filter hwfilter
      simpa using this
    have hwmem : w ∈ rows.filterMap (specInferredWindow present orders cycle) :=
      List.mem_of_mem_filter hwfilter
    rw [List.mem_filterMap] at hwmem
    obtain ⟨row, hrow, hspec⟩ := hwmem
    obtain ⟨wo, et, time, step, wsc⟩ := row
    rcases wsc with _ | wsc
    · simp [specInferredWindow] at hspec
    rcases time with _ | start0
    · simp [specInferredWindow] at hspec
    rcases step with _ | step0
    · simp [specInferredWindow] at hspec
    simp only [specInferredWindow] at hspec
    rcases hp : (alookup orders wo).bind OrderR.product with _ | product
    · rcases hq : (alookup orders wo).bind OrderR.quantity with _ | qty <;>
        simp [hp, hq] at hspec
    rcases hq : (alookup orders wo).bind OrderR.quantity with _ | qty
    · simp [hp, hq] at hspec
    rcases hc : (alookup cycle (step0 - 1)).bind
        (fun dp => (alookup dp product).bind (fun dw => alookup dw wsc)) with _ | ct
    · simp [hp, hq, hc] at hspec
    simp only [hp, hq, hc] at hspec
    by_cases hcond : pyUpper (et.getD "") = "START" ∧ wsc ≠ "" ∧
        0 < qty * ct - (if (present - start0) / 60 < 0 then 0 else (present - start0) / 60)
    · rw [if_pos hcond] at hspec
      obtain ⟨hA, hB, hpos⟩ := hcond
      have hwv : w = (wsc, present,
          present + 60 * (qty * ct -
            (if (present - start0) / 60 < 0 then 0 else (present - start0) / 60))) :=
        (Option.some.inj hspec).symm
      have hws : wsc = ws := by rw [hwv] at hw1; exact hw1
      have hse : (present, present + 60 * (qty * ct -
          (if (present - start0) / 60 < 0 then 0 else (present - start0) / 60))) = (s, e) := by
        rw [hwv] at hw2; exact hw2
      have hs : s = present := (congrArg Prod.fst hse).symm
      have he : e = present + 60 * (qty * ct -
          (if (present - start0) / 60 < 0 then 0 else (present - start0) / 60)) :=
        (congrArg Prod.snd hse).symm
      subst hws
      have hclamp0 : (0:ℚ) ≤
          (if (present - start0) / 60 < 0 then 0 else (present - start0) / 60) := by
        by_cases hlt : (present - start0) / 60 < 0
        · rw [if_pos hlt]
        · rw [if_neg hlt]; exact not_lt.mp hlt
      refine ⟨hs, by rw [he, hs]; linarith, ⟨wo, et, some start0, some step0, some wsc⟩,
        hrow, start0, product, qty, ct, rfl, hp, hq, ⟨step0, rfl, hc⟩, ?_, ?_⟩
      · rw [he, hs]; linarith
      · intro hps
        have hdiv : (present - start0) / 60 ≤ 0 := by
          apply div_nonpos_of_nonpos_of_nonneg
          · linarith
          · norm_num
        have hcl : (if (present - start0) / 60 < 0 then 0 else (present - start0) / 60)
            = 0 := by
          by_cases hlt : (present - start0) / 60 < 0
          · rw [if_pos hlt]
          · rw [if_neg hlt]; exact le_antisymm hdiv (not_lt.mp hlt)
        rw [he, hs, hcl]; ring
    · rw [if_neg hcond] at hspec
      exact absurd hspec (by simp)

/-- Witness for C10: present time 200, one order with quantity 3 and cycle
time 4 on workstation M2, START event at time 200; the appended window has
strictly positive duration. -/
theorem inferred_window_duration_bounds_witness :
    (0:ℚ) < 920 - 200 := by
  have h := inferred_window_duration_bounds 200
    [("WO2", ⟨some "Q", some 3, true⟩)]
    [(0, [("Q", [("M2", 4)])])]
    [⟨"WO2", some "START", some 200, some 1, some "M2"⟩]
    [] "M2" 200 920
    (by norm_num [append_running_job_downtimes, runRowWindow, alookup, amodify, pyUpper])
    (by simp [alookup])
  exact h.2.1

/-! ## Claim theorems: employee-shift boundary -/

/-- Counterexample to C9 as stated: when present time falls exactly on the
07:30 night-shift boundary, `_build_employee_shift` returns that boundary
itself — equal to present time, not strictly after it. -/
theorem first_shift_end_at_boundary_not_strict :
    buildFirstShiftEnd 0 27000000000 = 86400000000 * 0 + 27000000000
    ∧ ¬ (86400000000 * 0 + 27000000000 < buildFirstShiftEnd 0 27000000000)
    ∧ (0:ℤ) ≤ 27000000000 ∧ (27000000000:ℤ) < 86400000000 := by
  refine ⟨by decide, ?_, by decide, by decide⟩
  intro h
  rw [show buildFirstShiftEnd 0 27000000000 = 86400000000 * 0 + 27000000000 by decide] at h
  exact lt_irrefl _ h

/-- C9 (amended): for present time on day `d` at time-of-day `t`
microseconds, the first shift end computed by `_build_employee_shift` is the
earliest of the daily 19:30 and 07:30 boundaries at or after present time
(equal to present time exactly when present time falls on a boundary,
strictly after it otherwise). -/
theorem first_shift_end_next_boundary (d t : ℤ)
    (h0 : 0 ≤ t) (h1 : t < 86400000000) :
    (∃ k, buildFirstShiftEnd d t = nightShiftEnd k ∨ buildFirstShiftEnd d t = dayShiftEnd k)
    ∧ 86400000000 * d + t ≤ buildFirstShiftEnd d t
    ∧ (∀ k, 86400000000 * d + t ≤ nightShiftEnd k →
        buildFirstShiftEnd d t ≤ nightShiftEnd k)
    ∧ (∀ k, 86400000000 * d + t ≤ dayShiftEnd k →
        buildFirstShiftEnd d t ≤ dayShiftEnd k) := by
  simp only [buildFirstShiftEnd, nightShiftEnd, dayShiftEnd]
  split_ifs with hA hB
  · exact ⟨⟨d, Or.inl rfl⟩, by omega, fun k hk => by omega, fun k hk => by omega⟩
  · exact ⟨⟨d, Or.inr rfl⟩, by omega, fun k hk => by omega, fun k hk => by omega⟩
  · exact ⟨⟨d + 1, Or.inl rfl⟩, by omega, fun k hk => by omega, fun k hk => by omega⟩

/-- Witness for C9 at present time 08:20 on day 0: the computed boundary is
at or after present time. -/
theorem first_shift_end_next_boundary_witness :
    86400000000 * 0 + 30000000000 ≤ buildFirstShiftEnd 0 30000000000 :=
  (first_shift_end_next_boundary 0 30000000000 (by decide) (by decide)).2.1

end InternalApp
